import Mathlib

set_option maxRecDepth 100000

namespace Sqlx

/-! ## Byte-level helpers -/

/-- Big-endian byte encoding of `n` using exactly `w` bytes (the layout
`encoding/binary.Write` with `binary.BigEndian` produces for a `w`-byte
fixed-width value). -/
def beBytes : Nat → Nat → List Nat
  | 0, _ => []
  | w + 1, n => beBytes w (n / 256) ++ [n % 256]

/-- Big-endian value of a byte list (the combination `encoding/binary`
performs when reading a fixed-width value). -/
def beVal (l : List Nat) : Nat :=
  l.foldl (fun acc b => acc * 256 + b % 256) 0

/-! ## The GCM envelope layer

`crypto/cipher.NewGCM` over an AES block cipher, as used by both holder
implementations through `gcm.Seal(nonce, nonce, data, nil)` and
`gcm.Open(nil, nonce, ciphertext, nil)`.  The AES core is Go standard
library code, external to the repository; it enters the model as the
abstract 128-bit block permutation `E`.  The GCM mode itself is modelled
from the spec: a 12-byte nonce, counter-mode keystream applied to the
plaintext (ciphertext has the plaintext's length), and a 16-byte GHASH
tag over the ciphertext appended at the end, giving the envelope layout
`nonce ‖ ciphertext ‖ tag`. -/

/-- The GCM reduction constant `R = 0xE1 ‖ 0^120`. -/
def gcmR : Nat := 225 * 2 ^ 120

/-- Multiplication in GF(2^128) with the GCM bit ordering (NIST SP
800-38D algorithm: conditional xor and right-shift with reduction by
`gcmR`).  Blocks are 128-bit naturals, bit 127 being the first bit. -/
def gmul (x y : Nat) : Nat :=
  (((List.range 128).foldl (fun zv i =>
      (if x.testBit (127 - i) then zv.1 ^^^ zv.2 else zv.1,
       if zv.2 % 2 = 1 then zv.2 / 2 ^^^ gcmR else zv.2 / 2))
    ((0 : Nat), y))).1

/-- The GHASH accumulator over a list of 128-bit blocks. -/
def ghashBlocks (h : Nat) (blocks : List Nat) : Nat :=
  blocks.foldl (fun y x => gmul (y ^^^ x) h) 0

/-- 16-byte big-endian image of a 128-bit block. -/
def blockToBytes (n : Nat) : List Nat := beBytes 16 n

/-- Split a byte string into 128-bit blocks (16 bytes each); the fuel
argument (any bound on the number of blocks, decremented once per block)
makes the recursion structural. -/
def toBlocksGo (fuel : Nat) (l : List Nat) : List Nat :=
  match fuel with
  | 0 => []
  | fuel + 1 =>
    match l with
    | [] => []
    | l => beVal (l.take 16) :: toBlocksGo fuel (l.drop 16)

/-- Split a byte string into 128-bit blocks (16 bytes each). -/
def toBlocks (l : List Nat) : List Nat := toBlocksGo l.length l

/-- The GHASH input for associated data `nil`: the ciphertext padded
with zeros to a block boundary, followed by the 64-bit bit-lengths of
the (empty) associated data and of the ciphertext. -/
def ghashPad (c : List Nat) : List Nat :=
  c ++ List.replicate ((16 - c.length % 16) % 16) 0
    ++ List.replicate 8 0 ++ beBytes 8 (8 * c.length)

/-- The initial counter block `J0` for a 12-byte nonce:
`nonce ‖ 0^31 ‖ 1`. -/
def gcmJ0 (nonce : List Nat) : Nat := beVal nonce * 2 ^ 32 + 1

/-- `inc32`: increment the low 32 bits of a counter block, wrapping. -/
def inc32 (x : Nat) : Nat := x / 2 ^ 32 * 2 ^ 32 + (x + 1) % 2 ^ 32

/-- `k` counter-mode keystream blocks starting at counter `ctr`. -/
def ksBlocks (E : Nat → Nat) : Nat → Nat → List Nat
  | _, 0 => []
  | ctr, k + 1 => blockToBytes (E ctr) ++ ksBlocks E (inc32 ctr) k

/-- The first `n` keystream bytes for a given nonce (counters start at
`inc32 J0`; `E J0` is reserved for the tag mask). -/
def keystream (E : Nat → Nat) (nonce : List Nat) (n : Nat) : List Nat :=
  (ksBlocks E (inc32 (gcmJ0 nonce)) ((n + 15) / 16)).take n

/-- Byte-wise xor of two byte strings, truncated to the shorter. -/
def xorBytes (a b : List Nat) : List Nat := List.zipWith (· ^^^ ·) a b

/-- The ciphertext GCM produces for plaintext `p`. -/
def gcmCT (E : Nat → Nat) (nonce p : List Nat) : List Nat :=
  xorBytes p (keystream E nonce p.length)

/-- The 16-byte GCM authentication tag over ciphertext `c`:
`GHASH_H(pad(c)) ⊕ E(J0)` with hash key `H = E(0)`. -/
def gcmTagBytes (E : Nat → Nat) (nonce c : List Nat) : List Nat :=
  blockToBytes (ghashBlocks (E 0) (toBlocks (ghashPad c)) ^^^ E (gcmJ0 nonce))

/-- `gcm.Seal(nil, nonce, p, nil)`: ciphertext followed by the tag. -/
def gcmSeal (E : Nat → Nat) (nonce p : List Nat) : List Nat :=
  gcmCT E nonce p ++ gcmTagBytes E nonce (gcmCT E nonce p)

/-- `gcm.Open(nil, nonce, data, nil)`: split off the trailing 16-byte
tag, recompute it over the received ciphertext, and decrypt only on a
match; `none` is the authentication failure. -/
def gcmOpen (E : Nat → Nat) (nonce data : List Nat) : Option (List Nat) :=
  if data.length < 16 then none
  else
    let ct := data.take (data.length - 16)
    let tag := data.drop (data.length - 16)
    if tag = gcmTagBytes E nonce ct then
      some (xorBytes ct (keystream E nonce ct.length))
    else none

/-! ## Errors

One abstract constructor per distinct error value the two implementations
can return.  `invalid` is `errInvalid` of `EncryptColumn`, `keyLengthInvalid`
its `errKeyLengthInvalid`, `keySize` the `crypto/aes` `KeySizeError` that
`aes.NewCipher` returns inside `aesEncrypt`/`aesDecrypt`, `readEOF` the
`io.EOF`/`io.ErrUnexpectedEOF` of a short `binary.Read`, `sfKeyLengthInvalid`
the `setupCrypto` error of `SecureField`, `invalidHolderState` its invalid
value error, `lenMismatch w` its int8/int16 length errors, and the rest are
shared between the two. -/

inductive Err where
  | invalid
  | keyLengthInvalid
  | keySize
  | sfKeyLengthInvalid
  | invalidHolderState
  | decryptionFailed
  | envelopeTooShort
  | readEOF
  | lenMismatch (w : Nat)
  | unsupportedSourceType
  deriving DecidableEq

/-- Key lengths accepted by AES: 16, 24 or 32 bytes. -/
def keyLenValid (key : List Nat) : Bool :=
  key.length == 16 || key.length == 24 || key.length == 32

/-! ## The type-directed codec of `EncryptColumn` (part_000)

The closed set of primitive types the `Value`/`setValAfterDecrypt` type
switches handle.  The `default` arm of both switches (the `encoding/json`
fallback) serialises through an external library and is outside this
universe.  Signed types are carried as `Int`, unsigned ones as `Nat`, and
`float32`/`float64` as their IEEE-754 bit patterns — exactly the bits
`binary.Write`/`binary.Read` transport.  The platform-sized `int`/`uint`
are the 64-bit-normalised variants of the source. -/

inductive Ty where
  | str | bytes | i8 | i16 | i32 | i64 | u8 | u16 | u32 | u64 | f32 | f64 | intT | uintT
  deriving DecidableEq

@[reducible]

def Ty.interp : Ty → Type
  | .str => List Nat
  | .bytes => List Nat
  | .i8 | .i16 | .i32 | .i64 | .intT => Int
  | .u8 | .u16 | .u32 | .u64 | .uintT => Nat
  | .f32 | .f64 => Nat

instance (t : Ty) : DecidableEq t.interp := by
  cases t <;> (dsimp [Ty.interp]; infer_instance)

/-- The encoded byte width of each fixed-width numeric type; `none` for
the pass-through string and byte-slice types. -/
def Ty.widthBytes : Ty → Option Nat
  | .str | .bytes => none
  | .i8 | .u8 => some 1
  | .i16 | .u16 => some 2
  | .i32 | .u32 | .f32 => some 4
  | .i64 | .u64 | .f64 | .intT | .uintT => some 8

/-- Truncation of a signed value to its `w`-bit unsigned two's-complement
image (the reinterpretation Go performs when writing an intN). -/
def toU (w : Nat) (v : Int) : Nat := (v % (2 ^ w : Int)).toNat

/-- Reading a `w`-bit unsigned image back as a signed value. -/
def fromU (w : Nat) (u : Nat) : Int :=
  if (u : Int) < 2 ^ (w - 1) then (u : Int) else (u : Int) - 2 ^ w

/-- `EncryptColumn.Value`'s serialisation switch: strings and byte slices
pass through, fixed-width numerics are written big-endian at natural
width, `int`/`uint` are normalised to 64 bits first. -/
def encode : (t : Ty) → t.interp → List Nat
  | .str, s => s
  | .bytes, b => b
  | .i8, v => beBytes 1 (toU 8 v)
  | .i16, v => beBytes 2 (toU 16 v)
  | .i32, v => beBytes 4 (toU 32 v)
  | .i64, v => beBytes 8 (toU 64 v)
  | .intT, v => beBytes 8 (toU 64 v)
  | .u8, v => beBytes 1 v
  | .u16, v => beBytes 2 v
  | .u32, v => beBytes 4 v
  | .u64, v => beBytes 8 v
  | .uintT, v => beBytes 8 v
  | .f32, v => beBytes 4 v
  | .f64, v => beBytes 8 v

/-- `binary.Read` of a `w`-byte value from the byte string `b`: fails
with EOF when fewer than `w` bytes are available, otherwise consumes
exactly the first `w` bytes and ignores the rest. -/
def readBE (w : Nat) (b : List Nat) : Except Err Nat :=
  if b.length < w then .error .readEOF else .ok (beVal (b.take w))

/-- `EncryptColumn.setValAfterDecrypt`'s deserialisation switch: given
the current `Val` and the decrypted bytes, it returns the value left in
`Val` together with the returned error.  Strings and byte slices take
the decrypted bytes unchanged.  The direct fixed-width arms hand `&e.Val`
to `binary.Read`, which decodes into the destination only after a
successful full read, so a failed read keeps the current value.  The
`*int`/`*uint` arms read into a fresh zero `int64`/`uint64` temporary and
write the narrowed temporary back unconditionally — after a failed read
the temporary is still zero, so `Val` is overwritten with zero
(narrowing is the identity on a 64-bit platform). -/
def setValAfterDecrypt : (t : Ty) → t.interp → List Nat → t.interp × Option Err
  | .str, _, b => (b, none)
  | .bytes, _, b => (b, none)
  | .i8, cur, b =>
    match readBE 1 b with
    | .ok u => (fromU 8 u, none)
    | .error er => (cur, some er)
  | .i16, cur, b =>
    match readBE 2 b with
    | .ok u => (fromU 16 u, none)
    | .error er => (cur, some er)
  | .i32, cur, b =>
    match readBE 4 b with
    | .ok u => (fromU 32 u, none)
    | .error er => (cur, some er)
  | .i64, cur, b =>
    match readBE 8 b with
    | .ok u => (fromU 64 u, none)
    | .error er => (cur, some er)
  | .intT, _, b =>
    match readBE 8 b with
    | .ok u => (fromU 64 u, none)
    | .error er => (0, some er)
  | .u8, cur, b =>
    match readBE 1 b with
    | .ok u => (u, none)
    | .error er => (cur, some er)
  | .u16, cur, b =>
    match readBE 2 b with
    | .ok u => (u, none)
    | .error er => (cur, some er)
  | .u32, cur, b =>
    match readBE 4 b with
    | .ok u => (u, none)
    | .error er => (cur, some er)
  | .u64, cur, b =>
    match readBE 8 b with
    | .ok u => (u, none)
    | .error er => (cur, some er)
  | .uintT, _, b =>
    match readBE 8 b with
    | .ok u => (u, none)
    | .error er => (0, some er)
  | .f32, cur, b =>
    match readBE 4 b with
    | .ok u => (u, none)
    | .error er => (cur, some er)
  | .f64, cur, b =>
    match readBE 8 b with
    | .ok u => (u, none)
    | .error er => (cur, some er)

/-- The in-range predicate for a primitive value: two's-complement range
for signed types, `< 2^bits` for unsigned and float-bit types, no
constraint on strings and byte slices. -/
def Ty.InRange : (t : Ty) → t.interp → Prop
  | .str, _ => True
  | .bytes, _ => True
  | .i8, v => -(2 ^ 7) ≤ v ∧ v < 2 ^ 7
  | .i16, v => -(2 ^ 15) ≤ v ∧ v < 2 ^ 15
  | .i32, v => -(2 ^ 31) ≤ v ∧ v < 2 ^ 31
  | .i64, v => -(2 ^ 63) ≤ v ∧ v < 2 ^ 63
  | .intT, v => -(2 ^ 63) ≤ v ∧ v < 2 ^ 63
  | .u8, v => v < 2 ^ 8
  | .u16, v => v < 2 ^ 16
  | .u32, v => v < 2 ^ 32
  | .u64, v => v < 2 ^ 64
  | .uintT, v => v < 2 ^ 64
  | .f32, v => v < 2 ^ 32
  | .f64, v => v < 2 ^ 64

instance (t : Ty) (v : t.interp) : Decidable (t.InRange v) := by
  cases t <;> (dsimp [Ty.InRange]; infer_instance)

/-! ## The `EncryptColumn` holder (part_000)

`EncryptColumn[T]` is a plain value struct: `Val`, the `Valid` flag and
the `Key` string (modelled as its bytes).  It has no cached crypto
context: `Value` re-checks the key length on every call, and
`aesEncrypt`/`aesDecrypt` re-derive the cipher on every call.  The fresh
random nonce `crypto/rand` fills inside `aesEncrypt` is passed in as the
`nonce` argument of the model; the AES core keyed by `Key` is the
abstract block permutation `E`. -/

structure EncryptColumn (t : Ty) where
  Val : t.interp
  Valid : Bool
  Key : List Nat

instance (t : Ty) : DecidableEq (EncryptColumn t) :=
  fun a b =>
    decidable_of_iff (a.Val = b.Val ∧ a.Valid = b.Valid ∧ a.Key = b.Key)
      (by cases a; cases b; simp)

/-- `aesEncrypt`: `aes.NewCipher` (a `KeySizeError` for a key length
other than 16/24/32), `cipher.NewGCM`, a fresh 12-byte nonce, then
`gcm.Seal(nonce, nonce, data, nil)` — nonce prepended to
ciphertext-plus-tag. -/
def aesEncrypt (E : Nat → Nat) (key nonce data : List Nat) : Except Err (List Nat) :=
  if keyLenValid key then .ok (nonce ++ gcmSeal E nonce data)
  else .error .keySize

/-- Result of `aesDecrypt`/`Scan`: Go can return normally, return an
error, or panic out of the function. -/
inductive DecOut where
  | ok (b : List Nat)
  | err (e : Err)
  | panicked
  deriving DecidableEq

/-- `aesDecrypt`: `aes.NewCipher` (a `KeySizeError` for a bad key length),
`cipher.NewGCM`, then the unchecked split `data[:12], data[12:]` followed
by `gcm.Open`.  There is no length validation: when the input is shorter
than the 12-byte nonce the slice expression panics — modelled by
`panicked` — since a driver-supplied byte slice has capacity equal to its
length. -/
def aesDecrypt (E : Nat → Nat) (key data : List Nat) : DecOut :=
  if keyLenValid key then
    if data.length < 12 then .panicked
    else
      match gcmOpen E (data.take 12) (data.drop 12) with
      | some p => .ok p
      | none => .err .decryptionFailed
  else .err .keySize

/-- `EncryptColumn.Value` (the seal path): refuse an invalid holder,
validate the key length, serialise `Val` and encrypt. -/
def EncryptColumn.Value (E : Nat → Nat) (nonce : List Nat) {t : Ty} (e : EncryptColumn t) :
    Except Err (List Nat) :=
  if e.Valid = false then .error .invalid
  else if keyLenValid e.Key = false then .error .keyLengthInvalid
  else aesEncrypt E e.Key nonce (encode t e.Val)

/-- The value the database driver hands to `Scan`: a byte slice, a
string (treated as raw bytes), or a value of any other type. -/
inductive ScanSrc where
  | bytes (b : List Nat)
  | str (s : List Nat)
  | other
  deriving DecidableEq

/-- Outcome of a `Scan` call. -/
inductive ScanOut where
  | ok
  | err (e : Err)
  | panicked
  deriving DecidableEq

/-- `EncryptColumn.Scan` (the open path): dispatch on the source type,
decrypt, then deserialise; the deserialisation step writes `Val` (the
decoded value, or the write-back `setValAfterDecrypt` performs on its
error path) and `Valid` is assigned `err == nil` afterwards — the early
returns on an unsupported source or a decryption failure leave the
holder untouched. -/
def EncryptColumn.Scan (E : Nat → Nat) {t : Ty} (e : EncryptColumn t) (src : ScanSrc) :
    EncryptColumn t × ScanOut :=
  match src with
  | .other => (e, .err .unsupportedSourceType)
  | .bytes b | .str b =>
    match aesDecrypt E e.Key b with
    | .panicked => (e, .panicked)
    | .err er => (e, .err er)
    | .ok plain =>
      match setValAfterDecrypt t e.Val plain with
      | (v, some er) => ({ e with Val := v, Valid := false }, .err er)
      | (v, none) => ({ e with Val := v, Valid := true }, .ok)

/-! ## The `SecureField` holder (part_001)

`SecureField[T]` carries its value, the validity flag, a copied secret
and the once-only crypto initialisation outcome.  `setupCrypto` runs
inside `NewSecureField` through `sync.Once`; for a valid-length secret
neither `aes.NewCipher` nor `cipher.NewGCM` can fail, so `initError` is
exactly the outcome of the length check and the derived AEAD is the
abstract block permutation `E`.  Its codec handles strings, byte slices,
`int8` and `int16`; every other type goes through the external
`msgpack` library and is outside this universe. -/

inductive STy where
  | str | bytes | i8 | i16
  deriving DecidableEq

@[reducible]

def STy.interp : STy → Type
  | .str => List Nat
  | .bytes => List Nat
  | .i8 => Int
  | .i16 => Int

instance (t : STy) : DecidableEq t.interp := by
  cases t <;> (dsimp [STy.interp]; infer_instance)

structure SecureField (t : STy) where
  value : t.interp
  isValid : Bool
  secret : List Nat
  initError : Option Err

instance (t : STy) : DecidableEq (SecureField t) :=
  fun a b =>
    decidable_of_iff
      (a.value = b.value ∧ a.isValid = b.isValid ∧ a.secret = b.secret ∧ a.initError = b.initError)
      (by cases a; cases b; simp)

/-- `NewSecureField`: store the initial value, mark the holder valid,
copy the secret and run `setupCrypto` once. -/
def newSecureField (t : STy) (secret : List Nat) (initialValue : t.interp) : SecureField t :=
  { value := initialValue
    isValid := true
    secret := secret
    initError := if keyLenValid secret then none else some .sfKeyLengthInvalid }

/-- `SecureField.Value`'s serialisation switch: zero-copy string bytes,
byte slices unchanged, `int8` as its single byte, `int16` big-endian. -/
def sEncode : (t : STy) → t.interp → List Nat
  | .str, s => s
  | .bytes, b => b
  | .i8, v => [toU 8 v]
  | .i16, v => beBytes 2 (toU 16 v)

/-- `SecureField.Scan`'s deserialisation switch: strings and byte slices
unchanged, `int8`/`int16` demand the exact encoded width. -/
def sDecode : (t : STy) → List Nat → Except Err t.interp
  | .str, b => .ok b
  | .bytes, b => .ok b
  | .i8, b => if b.length ≠ 1 then .error (.lenMismatch 1) else .ok (fromU 8 (beVal b))
  | .i16, b => if b.length ≠ 2 then .error (.lenMismatch 2) else .ok (fromU 16 (beVal b))

def STy.InRange : (t : STy) → t.interp → Prop
  | .str, _ => True
  | .bytes, _ => True
  | .i8, v => -(2 ^ 7) ≤ v ∧ v < 2 ^ 7
  | .i16, v => -(2 ^ 15) ≤ v ∧ v < 2 ^ 15

instance (t : STy) (v : t.interp) : Decidable (t.InRange v) := by
  cases t <;> (dsimp [STy.InRange]; infer_instance)

/-- `SecureField.Value`: replay a cached initialisation error, refuse an
invalid holder, then serialise and `aead.Seal(nonce, nonce, data, nil)`. -/
def SecureField.Value (E : Nat → Nat) (nonce : List Nat) {t : STy} (sf : SecureField t) :
    Except Err (List Nat) :=
  match sf.initError with
  | some e => .error e
  | none =>
    if sf.isValid = false then .error .invalidHolderState
    else .ok (nonce ++ gcmSeal E nonce (sEncode t sf.value))

/-- `SecureField.Scan`: replay a cached initialisation error, dispatch on
the source type, check the envelope length, `aead.Open`, then
deserialise.  A decryption failure sets `isValid` to false; the
`int8`/`int16` width-mismatch errors return early without touching it. -/
def SecureField.Scan (E : Nat → Nat) {t : STy} (sf : SecureField t) (src : ScanSrc) :
    SecureField t × ScanOut :=
  match sf.initError with
  | some e => (sf, .err e)
  | none =>
    match src with
    | .other => (sf, .err .unsupportedSourceType)
    | .bytes b | .str b =>
      if b.length < 12 then (sf, .err .envelopeTooShort)
      else
        match gcmOpen E (b.take 12) (b.drop 12) with
        | none => ({ sf with isValid := false }, .err .decryptionFailed)
        | some plain =>
          match sDecode t plain with
          | .error er => (sf, .err er)
          | .ok v => ({ sf with value := v, isValid := true }, .ok)

/-- The reachability invariant of `SecureField`: a holder whose crypto
initialisation failed is still marked valid (nothing ever clears the
flag of such a holder). -/
def CryptoInv {t : STy} (sf : SecureField t) : Prop :=
  sf.initError ≠ none → sf.isValid = true

instance {ε α : Type} [DecidableEq ε] [DecidableEq α] : DecidableEq (Except ε α) :=
  fun a b =>
    match a, b with
    | .ok x, .ok y => decidable_of_iff (x = y) (by simp)
    | .error x, .error y => decidable_of_iff (x = y) (by simp)
    | .ok _, .error _ => isFalse (by simp)
    | .error _, .ok _ => isFalse (by simp)

end Sqlx

namespace Slice

/-! ## The `slice` utilities (src/internal/slice/add.go)

`Add` inserts an element at a given position: bounds check, append one
zero value of the element type (`[Inhabited α]` supplies Go's zero
value), shift the tail one slot to the right from the end down to the
insertion point, then write the element.  The index is a Go `int`,
modelled as `Int`. -/

/-- `errs.NewErrIndexOutOfRange(length, index)`. -/
inductive SliceErr where
  | indexOutOfRange (length : Nat) (index : Int)
  deriving DecidableEq

/-- The element-shift loop of `Add`:
`for i := len(src)-1; i > index; i-- { src[i] = src[i-1] }`. -/
def shiftLoop [Inhabited α] (index : Nat) (a : List α) (i : Nat) : List α :=
  if h : index < i then shiftLoop index (a.set i (a.getD (i - 1) default)) (i - 1)
  else a
termination_by i
decreasing_by omega

/-- `slice.Add`. -/
def Add [Inhabited α] (src : List α) (element : α) (index : Int) : Except SliceErr (List α) :=
  if index < 0 ∨ (src.length : Int) < index then
    .error (.indexOutOfRange src.length index)
  else
    let src1 := src ++ [(default : α)]
    let src2 := shiftLoop index.toNat src1 (src1.length - 1)
    .ok (src2.set index.toNat element)

end Slice

namespace Sqlx

/-! ## Concrete material for witnesses

The identity on blocks is one concrete block permutation (any keyed AES
instance may be substituted for it; the theorems are quantified over the
permutation), and the all-zero keys and nonce are the concrete inputs of
the spec's scenarios. -/

def idBlock : Nat → Nat := fun n => n

def zeroKey15 : List Nat := List.replicate 15 0

def zeroKey16 : List Nat := List.replicate 16 0

def zeroKey32 : List Nat := List.replicate 32 0

def zeroNonce : List Nat := List.replicate 12 0

/-- The 8-byte big-endian encoding of `int64(42)`. -/
def enc42 : List Nat := [0, 0, 0, 0, 0, 0, 0, 42]

/-! ## The claims -/

/-- A second concrete 12-byte nonce, differing from `zeroNonce` in its
last byte. -/
def oneNonce : List Nat := List.replicate 11 0 ++ [1]

end Sqlx


namespace Sqlx

theorem beBytes_length (w n : Nat) : (beBytes w n).length = w := by
  induction w generalizing n with
  | zero => simp [beBytes]
  | succ w ih => simp [beBytes, ih]

theorem beBytes_foldl (w m a : Nat) :
    (beBytes w m).foldl (fun acc b => acc * 256 + b % 256) a = a * 256 ^ w + m % 256 ^ w := by
  induction w generalizing m a with
  | zero => simp [beBytes, Nat.mod_one]
  | succ w ih =>
    rw [beBytes, List.foldl_append, ih]
    simp only [List.foldl_cons, List.foldl_nil]
    have h256 : (256 : Nat) ^ (w + 1) = 256 * 256 ^ w := by
      rw [pow_succ, Nat.mul_comm]
    have hmod : m % 256 ^ (w + 1) = m % 256 + 256 * (m / 256 % 256 ^ w) := by
      rw [h256, Nat.mod_mul]
    have hm : m % 256 % 256 = m % 256 := Nat.mod_mod_of_dvd _ dvd_rfl
    rw [hmod, h256, hm]
    ring

theorem beVal_beBytes (w n : Nat) : beVal (beBytes w n) = n % 256 ^ w := by
  simpa using beBytes_foldl w n 0

theorem beBytes_lt (w : Nat) (n : Nat) : ∀ b ∈ beBytes w n, b < 256 := by
  induction w generalizing n with
  | zero => simp [beBytes]
  | succ w ih =>
    intro b hb
    rw [beBytes] at hb
    rcases List.mem_append.1 hb with h | h
    · exact ih _ _ h
    · simp only [List.mem_singleton] at h
      subst h
      exact Nat.mod_lt _ (by norm_num)

theorem blockToBytes_length (n : Nat) : (blockToBytes n).length = 16 :=
  beBytes_length 16 n

theorem ksBlocks_length (E : Nat → Nat) (ctr k : Nat) :
    (ksBlocks E ctr k).length = 16 * k := by
  induction k generalizing ctr with
  | zero => simp [ksBlocks]
  | succ k ih => simp [ksBlocks, blockToBytes_length, ih]; ring

theorem keystream_length (E : Nat → Nat) (nonce : List Nat) (n : Nat) :
    (keystream E nonce n).length = n := by
  have h := Nat.div_add_mod (n + 15) 16
  have h2 : (n + 15) % 16 < 16 := Nat.mod_lt _ (by norm_num)
  simp only [keystream, List.length_take, ksBlocks_length]
  omega

theorem xorBytes_length (a b : List Nat) :
    (xorBytes a b).length = min a.length b.length := by
  simp [xorBytes]

theorem xorBytes_xorBytes (p k : List Nat) (h : p.length ≤ k.length) :
    xorBytes (xorBytes p k) k = p := by
  induction p generalizing k with
  | nil => simp [xorBytes]
  | cons a p ih =>
    cases k with
    | nil => simp at h
    | cons c k =>
      simp only [xorBytes, List.zipWith_cons_cons, List.cons.injEq]
      constructor
      · rw [Nat.xor_assoc, Nat.xor_self, Nat.xor_zero]
      · exact ih k (by simpa using h)

theorem gcmCT_length (E : Nat → Nat) (nonce p : List Nat) :
    (gcmCT E nonce p).length = p.length := by
  simp [gcmCT, xorBytes_length, keystream_length]

theorem gcmTagBytes_length (E : Nat → Nat) (nonce c : List Nat) :
    (gcmTagBytes E nonce c).length = 16 :=
  blockToBytes_length _

theorem gcmSeal_length (E : Nat → Nat) (nonce p : List Nat) :
    (gcmSeal E nonce p).length = p.length + 16 := by
  simp [gcmSeal, gcmCT_length, gcmTagBytes_length]

theorem gcmOpen_gcmSeal (E : Nat → Nat) (nonce p : List Nat) :
    gcmOpen E nonce (gcmSeal E nonce p) = some p := by
  have hct := gcmCT_length E nonce p
  have hlen := gcmSeal_length E nonce p
  have htag := gcmTagBytes_length E nonce (gcmCT E nonce p)
  rw [gcmOpen, if_neg (by omega)]
  have hsplit : (gcmSeal E nonce p).length - 16 = (gcmCT E nonce p).length := by omega
  have htake : (gcmSeal E nonce p).take ((gcmSeal E nonce p).length - 16) = gcmCT E nonce p := by
    rw [hsplit, gcmSeal, List.take_left' rfl]
  have hdrop : (gcmSeal E nonce p).drop ((gcmSeal E nonce p).length - 16) =
      gcmTagBytes E nonce (gcmCT E nonce p) := by
    rw [hsplit, gcmSeal, List.drop_left' rfl]
  simp only [htake, hdrop, if_pos rfl, Option.some.injEq]
  rw [hct, gcmCT, xorBytes_xorBytes _ _ (by rw [keystream_length])]
  simp

theorem toU_lt (w : Nat) (v : Int) : toU w v < 2 ^ w := by
  have h0 : (0 : Int) < 2 ^ w := by positivity
  have h1 := Int.emod_lt_of_pos v h0
  have h2 := Int.emod_nonneg v (by omega : (2 ^ w : Int) ≠ 0)
  have hc : ((2 ^ w : Nat) : Int) = 2 ^ w := by push_cast; ring
  simp only [toU]
  omega

theorem fromU_toU (w : Nat) (hw : w ≠ 0) (v : Int)
    (h1 : -(2 ^ (w - 1)) ≤ v) (h2 : v < 2 ^ (w - 1)) : fromU w (toU w v) = v := by
  have hp : (2 : Int) ^ w = 2 * 2 ^ (w - 1) := by
    conv_lhs => rw [show w = (w - 1) + 1 by omega]
    rw [pow_succ']
  have h0 : (0 : Int) < 2 ^ (w - 1) := by positivity
  rcases le_or_lt 0 v with hv | hv
  · have hmod : v % 2 ^ w = v := Int.emod_eq_of_lt hv (by omega)
    simp only [toU, fromU, hmod]
    rw [Int.toNat_of_nonneg hv]
    rw [if_pos h2]
  · have hmod : v % 2 ^ w = v + 2 ^ w := by
      have h2' : (v + 2 ^ w) % 2 ^ w = v + 2 ^ w :=
        Int.emod_eq_of_lt (by omega) (by omega)
      calc v % 2 ^ w = (v + 2 ^ w * 1) % 2 ^ w := (Int.add_mul_emod_self_left v (2 ^ w) 1).symm
        _ = v + 2 ^ w := by rw [mul_one]; exact h2'
    simp only [toU, fromU, hmod]
    rw [Int.toNat_of_nonneg (by omega)]
    rw [if_neg (by omega)]
    omega

theorem readBE_beBytes (w n : Nat) : readBE w (beBytes w n) = .ok (n % 256 ^ w) := by
  have hl := beBytes_length w n
  rw [readBE, if_neg (by omega)]
  rw [List.take_of_length_le (by omega), beVal_beBytes]

theorem pow256 (wB : Nat) : (256 : Nat) ^ wB = 2 ^ (8 * wB) := by
  rw [show (256 : Nat) = 2 ^ 8 from by norm_num, ← pow_mul]

theorem unsigned_roundtrip (wB : Nat) (v : Nat) (h : v < 2 ^ (8 * wB)) :
    readBE wB (beBytes wB v) = .ok v := by
  rw [readBE_beBytes, Nat.mod_eq_of_lt (by rw [pow256]; exact h)]

/-- The codec of `EncryptColumn` round-trips: decoding the encoding of
any in-range primitive value stores that value, whatever `Val` held
before, and reports no error. -/
theorem setValAfterDecrypt_encode (t : Ty) (cur v : t.interp) (h : t.InRange v) :
    setValAfterDecrypt t cur (encode t v) = (v, none) := by
  cases t with
  | str => rfl
  | bytes => rfl
  | i8 =>
    have hr := unsigned_roundtrip 1 (toU 8 v) (toU_lt 8 v)
    simp only [encode, setValAfterDecrypt, hr]
    rw [fromU_toU 8 (by norm_num) v h.1 h.2]
  | i16 =>
    have hr := unsigned_roundtrip 2 (toU 16 v) (toU_lt 16 v)
    simp only [encode, setValAfterDecrypt, hr]
    rw [fromU_toU 16 (by norm_num) v h.1 h.2]
  | i32 =>
    have hr := unsigned_roundtrip 4 (toU 32 v) (toU_lt 32 v)
    simp only [encode, setValAfterDecrypt, hr]
    rw [fromU_toU 32 (by norm_num) v h.1 h.2]
  | i64 =>
    have hr := unsigned_roundtrip 8 (toU 64 v) (toU_lt 64 v)
    simp only [encode, setValAfterDecrypt, hr]
    rw [fromU_toU 64 (by norm_num) v h.1 h.2]
  | intT =>
    have hr := unsigned_roundtrip 8 (toU 64 v) (toU_lt 64 v)
    simp only [encode, setValAfterDecrypt, hr]
    rw [fromU_toU 64 (by norm_num) v h.1 h.2]
  | u8 =>
    have hr := unsigned_roundtrip 1 v h
    simp [encode, setValAfterDecrypt, hr]
  | u16 =>
    have hr := unsigned_roundtrip 2 v h
    simp [encode, setValAfterDecrypt, hr]
  | u32 =>
    have hr := unsigned_roundtrip 4 v h
    simp [encode, setValAfterDecrypt, hr]
  | u64 =>
    have hr := unsigned_roundtrip 8 v h
    simp [encode, setValAfterDecrypt, hr]
  | uintT =>
    have hr := unsigned_roundtrip 8 v h
    simp [encode, setValAfterDecrypt, hr]
  | f32 =>
    have hr := unsigned_roundtrip 4 v h
    simp [encode, setValAfterDecrypt, hr]
  | f64 =>
    have hr := unsigned_roundtrip 8 v h
    simp [encode, setValAfterDecrypt, hr]

/-- The codec of `SecureField` round-trips on its primitive types. -/
theorem sDecode_sEncode (t : STy) (v : t.interp) (h : t.InRange v) :
    sDecode t (sEncode t v) = .ok v := by
  cases t with
  | str => rfl
  | bytes => rfl
  | i8 =>
    have hlt := toU_lt 8 v
    simp only [sEncode, sDecode, List.length_singleton]
    rw [if_neg (by omega)]
    have hb : beVal [toU 8 v] = toU 8 v := by
      simp only [beVal, List.foldl_cons, List.foldl_nil, Nat.zero_mul, Nat.zero_add]
      omega
    rw [hb, fromU_toU 8 (by norm_num) v h.1 h.2]
  | i16 =>
    have hlt := toU_lt 16 v
    have hl := beBytes_length 2 (toU 16 v)
    simp only [sEncode, sDecode]
    rw [if_neg (by omega), beVal_beBytes]
    rw [show toU 16 v % 256 ^ 2 = toU 16 v from by norm_num at hlt ⊢; omega]
    rw [fromU_toU 16 (by norm_num) v h.1 h.2]

/-- A `SecureField` whose crypto initialisation failed replays the cached
error on every `Scan` call, leaving the holder untouched. -/
theorem scan_replays_initError (E : Nat → Nat) {t : STy} (sf : SecureField t) (src : ScanSrc)
    (er : Err) (h : sf.initError = some er) : SecureField.Scan E sf src = (sf, .err er) := by
  simp [SecureField.Scan, h]

/-- A `SecureField` whose crypto initialisation failed replays the cached
error on every `Value` call. -/
theorem value_replays_initError (E : Nat → Nat) (nonce : List Nat) {t : STy}
    (sf : SecureField t) (er : Err) (h : sf.initError = some er) :
    SecureField.Value E nonce sf = .error er := by
  simp [SecureField.Value, h]

/-- `NewSecureField` establishes the invariant: the holder starts valid. -/
theorem newSecureField_cryptoInv (t : STy) (secret : List Nat) (v : t.interp) :
    CryptoInv (newSecureField t secret v) := by
  intro _
  rfl

/-- `Scan` preserves the invariant: a failed-initialisation holder is
returned unchanged, and `Scan` never modifies `initError`. -/
theorem scan_preserves_cryptoInv (E : Nat → Nat) {t : STy} (sf : SecureField t) (src : ScanSrc)
    (h : CryptoInv sf) : CryptoInv (SecureField.Scan E sf src).1 := by
  unfold SecureField.Scan
  match hie : sf.initError with
  | some e => exact h
  | none =>
    match src with
    | .other => simp [CryptoInv, hie]
    | .bytes b | .str b =>
      simp only []
      split
      · simp [CryptoInv, hie]
      · split
        · intro hcon
          simp [hie] at hcon
        · split
          · simp [CryptoInv, hie]
          · intro hcon
            rfl

end Sqlx

namespace Slice

theorem shiftLoop_length [Inhabited α] (index : Nat) (a : List α) (i : Nat) :
    (shiftLoop index a i).length = a.length := by
  induction i generalizing a with
  | zero => rw [shiftLoop]; simp
  | succ i ih =>
    rw [shiftLoop]
    split
    · rw [show i + 1 - 1 = i from rfl, ih]
      simp
    · rfl

theorem getD_set_ne [Inhabited α] (l : List α) (i j : Nat) (x : α) (h : i ≠ j) :
    (l.set i x).getD j default = l.getD j default := by
  induction l generalizing i j with
  | nil => simp
  | cons a l ih =>
    cases i with
    | zero =>
      cases j with
      | zero => omega
      | succ j => simp [List.set]
    | succ i =>
      cases j with
      | zero => simp [List.set]
      | succ j => simpa [List.set] using ih i j (by omega)

theorem getD_set_self [Inhabited α] (l : List α) (i : Nat) (x : α) (h : i < l.length) :
    (l.set i x).getD i default = x := by
  induction l generalizing i with
  | nil => simp at h
  | cons a l ih =>
    cases i with
    | zero => simp [List.set]
    | succ i => simpa [List.set] using ih i (by simpa using h)

/-- Element-level description of the shift loop: positions at or below
the insertion point and strictly above `i` are unchanged; positions in
`(index, i]` receive the element one slot to their left. -/
theorem shiftLoop_getD [Inhabited α] (index : Nat) (a : List α) (i : Nat)
    (hi : i < a.length) (j : Nat) :
    (shiftLoop index a i).getD j default =
      if j ≤ index ∨ i < j then a.getD j default else a.getD (j - 1) default := by
  induction i generalizing a with
  | zero =>
    rw [shiftLoop]
    simp only [Nat.not_lt_zero, dite_false]
    rw [if_pos (by omega)]
  | succ i ih =>
    rw [shiftLoop]
    split
    · next hlt =>
      have hlen : (a.set (i + 1) (a.getD i default)).length = a.length := by simp
      rw [show i + 1 - 1 = i from rfl]
      rw [ih _ (by omega)]
      rcases Nat.lt_trichotomy j (i + 1) with hj | hj | hj
      · rcases le_or_lt j index with hji | hji
        · rw [if_pos (Or.inl hji), if_pos (Or.inl hji), getD_set_ne _ _ _ _ (by omega)]
        · rw [if_neg (by omega), if_neg (by omega), getD_set_ne _ _ _ _ (by omega)]
      · subst hj
        rw [if_pos (by omega), if_neg (by omega)]
        rw [getD_set_self _ _ _ hi]
        rfl
      · rw [if_pos (by omega), if_pos (by omega), getD_set_ne _ _ _ _ (by omega)]
    · next hge =>
      rw [if_pos (by omega)]

theorem getD_take [Inhabited α] (l : List α) (n j : Nat) (h : j < n) :
    (l.take n).getD j default = l.getD j default := by
  rcases Nat.lt_or_ge j l.length with hj | hj
  · rw [List.getD_eq_getElem _ _ (by simp; omega), List.getD_eq_getElem _ _ hj,
      List.getElem_take]
  · rw [List.getD_eq_default _ _ (by simp; omega), List.getD_eq_default _ _ (by omega)]

theorem getD_drop [Inhabited α] (l : List α) (n j : Nat) :
    (l.drop n).getD j default = l.getD (n + j) default := by
  rcases Nat.lt_or_ge (n + j) l.length with hj | hj
  · rw [List.getD_eq_getElem _ _ (by simp; omega), List.getD_eq_getElem _ _ hj,
      List.getElem_drop]
  · rw [List.getD_eq_default _ _ (by simp; omega), List.getD_eq_default _ _ (by omega)]

/-- Element-level description of an insertion `take ++ e :: drop`. -/
theorem insert_getD [Inhabited α] (src : List α) (e : α) (idx : Nat) (h : idx ≤ src.length)
    (j : Nat) :
    (src.take idx ++ e :: src.drop idx).getD j default =
      if j < idx then src.getD j default
      else if j = idx then e
      else src.getD (j - 1) default := by
  have hlt : (src.take idx).length = idx := by simp; omega
  rcases Nat.lt_trichotomy j idx with hj | hj | hj
  · rw [List.getD_append _ _ _ _ (by omega), getD_take _ _ _ hj, if_pos hj]
  · subst hj
    rw [List.getD_append_right _ _ _ _ (by omega), hlt, Nat.sub_self]
    rw [if_neg (by omega), if_pos rfl]
    rfl
  · rw [List.getD_append_right _ _ _ _ (by omega), hlt]
    rw [show j - idx = j - idx - 1 + 1 from by omega]
    rw [show ((e :: src.drop idx).getD (j - idx - 1 + 1) default) =
      (src.drop idx).getD (j - idx - 1) default from rfl]
    rw [getD_drop, if_neg (by omega), if_neg (by omega)]
    congr 1
    omega

/-- In-bounds `Add` is insertion: the result is
`src[:index] ++ [element] ++ src[index:]`. -/
theorem Add_eq_insert [Inhabited α] (src : List α) (e : α) (idx : Nat) (h : idx ≤ src.length) :
    Add src e (idx : Int) = .ok (src.take idx ++ e :: src.drop idx) := by
  have hcond : ¬(((idx : Int) < 0) ∨ ((src.length : Int) < (idx : Int))) := by
    push_neg
    exact ⟨Int.natCast_nonneg idx, by exact_mod_cast h⟩
  rw [Add, if_neg hcond]
  simp only [Int.toNat_natCast]
  have hlen1 : (src ++ [(default : α)]).length = src.length + 1 := by simp
  rw [show (src ++ [(default : α)]).length - 1 = src.length from by omega]
  congr 1
  apply List.ext_getElem
  · simp only [List.length_set, shiftLoop_length, hlen1, List.length_append,
      List.length_cons, List.length_take, List.length_drop]
    omega
  · intro j hj1 hj2
    have hjn : j < src.length + 1 := by
      simpa [shiftLoop_length, hlen1] using hj1
    rw [← List.getD_eq_getElem _ default hj1, ← List.getD_eq_getElem _ default hj2]
    rw [insert_getD src e idx h j]
    rcases Nat.lt_trichotomy j idx with hj | hj | hj
    · rw [getD_set_ne _ _ _ _ (by omega),
        shiftLoop_getD _ _ _ (by rw [hlen1]; omega) j,
        if_pos (Or.inl (by omega)),
        List.getD_append _ _ _ _ (by omega),
        if_pos hj]
    · subst hj
      rw [getD_set_self _ _ _ (by rw [shiftLoop_length, hlen1]; omega)]
      rw [if_neg (by omega), if_pos rfl]
    · rw [getD_set_ne _ _ _ _ (by omega),
        shiftLoop_getD _ _ _ (by rw [hlen1]; omega) j,
        if_neg (by omega),
        List.getD_append _ _ _ _ (by omega),
        if_neg (by omega), if_neg (by omega)]

/-- Out-of-bounds `Add` returns the index-out-of-range error. -/
theorem Add_out_of_range [Inhabited α] (src : List α) (e : α) (index : Int)
    (h : index < 0 ∨ (src.length : Int) < index) :
    Add src e index = .error (.indexOutOfRange src.length index) := by
  rw [Add, if_pos h]

end Slice

namespace Sqlx

/-! ## Supporting inversion and decode lemmas -/

theorem aesEncrypt_ok_iff (E : Nat → Nat) (key nonce data env : List Nat) :
    aesEncrypt E key nonce data = .ok env ↔
      keyLenValid key = true ∧ env = nonce ++ gcmSeal E nonce data := by
  unfold aesEncrypt
  split
  · next hk => simp [hk, eq_comm]
  · next hk => simp [hk]

/-- Opening an envelope that `aesEncrypt` produced (same key and block
permutation) recovers the plaintext. -/
theorem aesDecrypt_aesEncrypt (E : Nat → Nat) (key nonce x : List Nat)
    (hkey : keyLenValid key = true) (hn : nonce.length = 12) :
    aesDecrypt E key (nonce ++ gcmSeal E nonce x) = .ok x := by
  have hlen : (nonce ++ gcmSeal E nonce x).length = 12 + (x.length + 16) := by
    simp [gcmSeal_length, hn]
  rw [aesDecrypt, if_pos hkey, if_neg (by omega)]
  rw [List.take_left' hn, List.drop_left' hn, gcmOpen_gcmSeal]

theorem secureValue_ok_iff (E : Nat → Nat) (nonce : List Nat) {t : STy}
    (sf : SecureField t) (env : List Nat) :
    SecureField.Value E nonce sf = .ok env ↔
      sf.initError = none ∧ sf.isValid = true ∧
        env = nonce ++ gcmSeal E nonce (sEncode t sf.value) := by
  unfold SecureField.Value
  rcases hie : sf.initError with _ | er
  · rcases hv : sf.isValid with _ | _
    · simp [hv]
    · simp [hv, eq_comm]
  · simp [hie]

theorem readBE_short (w : Nat) (b : List Nat) (h : b.length < w) :
    readBE w b = .error .readEOF := by
  rw [readBE, if_pos h]

theorem readBE_take (w : Nat) (b : List Nat) (h : w ≤ b.length) :
    readBE w b = .ok (beVal (b.take w)) ∧ readBE w (b.take w) = .ok (beVal (b.take w)) := by
  constructor
  · rw [readBE, if_neg (by omega)]
  · rw [readBE, if_neg (by simp; omega)]
    congr 1
    rw [List.take_take]
    simp

/-- A decrypted payload shorter than the target numeric width makes
`setValAfterDecrypt` fail with the EOF of `binary.Read`. -/
theorem setVal_short {t : Ty} {w : Nat} (hw : t.widthBytes = some w) (cur : t.interp)
    (b : List Nat) (h : b.length < w) :
    (setValAfterDecrypt t cur b).2 = some .readEOF := by
  cases t <;> simp only [Ty.widthBytes, Option.some.injEq, reduceCtorEq] at hw <;>
    subst hw <;>
    simp [setValAfterDecrypt, readBE_short _ _ h]

/-- A decrypted payload at least as long as the target numeric width is
accepted by `setValAfterDecrypt`: `binary.Read` consumes exactly the
leading width bytes and ignores the rest. -/
theorem setVal_long {t : Ty} {w : Nat} (hw : t.widthBytes = some w) (cur : t.interp)
    (b : List Nat) (h : w ≤ b.length) :
    setValAfterDecrypt t cur b = setValAfterDecrypt t cur (b.take w) ∧
      (setValAfterDecrypt t cur b).2 = none := by
  cases t <;> simp only [Ty.widthBytes, Option.some.injEq, reduceCtorEq] at hw <;>
    subst hw <;>
    obtain ⟨h1, h2⟩ := readBE_take _ b h <;>
    simp [setValAfterDecrypt, h1, h2]

/-- Claim C1, corrected.  As stated ("for every holder and every
Scan/open input on which the decryption step or the decode step fails,
the holder's validity flag is false immediately after the call returns,
in both holder implementations") the claim is false; what the code does
is: in `EncryptColumn.Scan` a decode failure sets `Valid` to false and
leaves in `Val` whatever the decoder wrote back — the prior value for
the direct fixed-width targets, but zero for the platform `int`/`uint`
targets, whose temporary is narrowed and stored even after a failed
read — while a decryption failure returns early with the holder
untouched; in `SecureField.Scan` a decryption failure sets `isValid` to
false but a fixed-width (int8/int16) decode failure returns early with
the holder untouched. -/
theorem claim1_theorem :
    (∀ (t : Ty) (E : Nat → Nat) (e : EncryptColumn t) (b plain : List Nat) (er : Err),
       aesDecrypt E e.Key b = .ok plain →
       (setValAfterDecrypt t e.Val plain).2 = some er →
       EncryptColumn.Scan E e (.bytes b) =
         ({ e with Val := (setValAfterDecrypt t e.Val plain).1, Valid := false }, .err er)) ∧
    (∀ (cur : Int) (b : List Nat), b.length < 8 →
       setValAfterDecrypt .intT cur b = (0, some .readEOF)) ∧
    (∀ (cur : Int) (b : List Nat), b.length < 8 →
       setValAfterDecrypt .i64 cur b = (cur, some .readEOF)) ∧
    (∀ (t : Ty) (E : Nat → Nat) (e : EncryptColumn t) (b : List Nat) (er : Err),
       aesDecrypt E e.Key b = .err er →
       EncryptColumn.Scan E e (.bytes b) = (e, .err er)) ∧
    (∀ (t : STy) (E : Nat → Nat) (sf : SecureField t) (b : List Nat),
       sf.initError = none → ¬ b.length < 12 →
       gcmOpen E (b.take 12) (b.drop 12) = none →
       SecureField.Scan E sf (.bytes b) =
         ({ sf with isValid := false }, .err .decryptionFailed)) ∧
    (∀ (t : STy) (E : Nat → Nat) (sf : SecureField t) (b plain : List Nat) (er : Err),
       sf.initError = none → ¬ b.length < 12 →
       gcmOpen E (b.take 12) (b.drop 12) = some plain →
       sDecode t plain = .error er →
       SecureField.Scan E sf (.bytes b) = (sf, .err er)) := by
  refine ⟨?_, ?_, ?_, ?_, ?_, ?_⟩
  · intro t E e b plain er h1 h2
    rcases hsv : setValAfterDecrypt t e.Val plain with ⟨v, e2⟩
    rw [hsv] at h2
    simp only [] at h2
    subst h2
    simp [EncryptColumn.Scan, h1, hsv]
  · intro cur b h
    simp [setValAfterDecrypt, readBE_short _ _ h]
  · intro cur b h
    simp [setValAfterDecrypt, readBE_short _ _ h]
  · intro t E e b er h1
    simp [EncryptColumn.Scan, h1]
  · intro t E sf b h1 h2 h3
    simp [SecureField.Scan, h1, h2, h3]
  · intro t E sf b plain er h1 h2 h3 h4
    simp [SecureField.Scan, h1, h2, h3, h4]

/-- Concrete instances of the branches of the corrected C1, including
the zero write-back into an `int`-typed holder and the preserved value
of an `int64`-typed one. -/
theorem claim1_witness :
    EncryptColumn.Scan idBlock
        { Val := (5 : Int), Valid := true, Key := zeroKey16 : EncryptColumn .i64 }
        (.bytes (zeroNonce ++ gcmSeal idBlock zeroNonce [])) =
      ({ Val := (5 : Int), Valid := false, Key := zeroKey16 }, .err .readEOF) ∧
    EncryptColumn.Scan idBlock
        { Val := (5 : Int), Valid := true, Key := zeroKey16 : EncryptColumn .intT }
        (.bytes (zeroNonce ++ gcmSeal idBlock zeroNonce [])) =
      ({ Val := (0 : Int), Valid := false, Key := zeroKey16 }, .err .readEOF) ∧
    setValAfterDecrypt .intT 7 [1, 2] = (0, some .readEOF) ∧
    setValAfterDecrypt .i64 7 [1, 2] = (7, some .readEOF) ∧
    EncryptColumn.Scan idBlock
        { Val := (0 : Int), Valid := true, Key := zeroKey16 : EncryptColumn .i64 }
        (.bytes (List.replicate 28 0)) =
      ({ Val := (0 : Int), Valid := true, Key := zeroKey16 }, .err .decryptionFailed) ∧
    SecureField.Scan idBlock
        { value := (0 : Int), isValid := true, secret := zeroKey16, initError := none :
          SecureField .i8 }
        (.bytes (List.replicate 28 0)) =
      ({ value := (0 : Int), isValid := false, secret := zeroKey16, initError := none },
        .err .decryptionFailed) ∧
    SecureField.Scan idBlock
        { value := (0 : Int), isValid := true, secret := zeroKey16, initError := none :
          SecureField .i8 }
        (.bytes (zeroNonce ++ gcmSeal idBlock zeroNonce [0, 0])) =
      ({ value := (0 : Int), isValid := true, secret := zeroKey16, initError := none },
        .err (.lenMismatch 1)) :=
  ⟨claim1_theorem.1 .i64 idBlock _ _ [] .readEOF (by decide) (by decide),
   claim1_theorem.1 .intT idBlock _ _ [] .readEOF (by decide) (by decide),
   claim1_theorem.2.1 7 [1, 2] (by decide),
   claim1_theorem.2.2.1 7 [1, 2] (by decide),
   claim1_theorem.2.2.2.1 .i64 idBlock _ _ .decryptionFailed (by decide),
   claim1_theorem.2.2.2.2.1 .i8 idBlock _ _ rfl (by decide) (by decide),
   claim1_theorem.2.2.2.2.2 .i8 idBlock _ _ [0, 0] (.lenMismatch 1) rfl (by decide)
     (by decide) (by decide)⟩

/-- Claim C1 counterexample: with a valid 16-byte key, scanning an
envelope whose tag does not verify is a decryption failure, and
`EncryptColumn.Scan` returns the error while leaving `Valid = true`. -/
theorem claim1_counterexample :
    (EncryptColumn.Scan idBlock
        { Val := (0 : Int), Valid := true, Key := zeroKey16 : EncryptColumn .i64 }
        (.bytes (List.replicate 28 0))).2 = .err .decryptionFailed ∧
    (EncryptColumn.Scan idBlock
        { Val := (0 : Int), Valid := true, Key := zeroKey16 : EncryptColumn .i64 }
        (.bytes (List.replicate 28 0))).1.Valid = true := by
  exact ⟨by decide, by decide⟩

/-- Claim C2, confirmed: both codecs round-trip every supported
primitive in-range value, and opening an `aesEncrypt` envelope with the
same key and block permutation recovers the sealed bytes. -/
theorem claim2_theorem :
    (∀ (t : Ty) (cur v : t.interp), t.InRange v →
       setValAfterDecrypt t cur (encode t v) = (v, none)) ∧
    (∀ (t : STy) (v : t.interp), t.InRange v → sDecode t (sEncode t v) = .ok v) ∧
    (∀ (E : Nat → Nat) (key nonce x env : List Nat),
       nonce.length = 12 →
       aesEncrypt E key nonce x = .ok env →
       aesDecrypt E key env = .ok x) := by
  refine ⟨setValAfterDecrypt_encode, sDecode_sEncode, ?_⟩
  intro E key nonce x env hn henv
  obtain ⟨hk, rfl⟩ := (aesEncrypt_ok_iff E key nonce x env).1 henv
  exact aesDecrypt_aesEncrypt E key nonce x hk hn

/-- Concrete instances of C2: `int64`/`int8` round-trips and a sealed
envelope reopened under the all-zero 16-byte key. -/
theorem claim2_witness :
    setValAfterDecrypt .i64 0 (encode .i64 42) = (42, none) ∧
    sDecode .i8 (sEncode .i8 5) = .ok 5 ∧
    aesDecrypt idBlock zeroKey16 (zeroNonce ++ gcmSeal idBlock zeroNonce [1, 2, 3]) =
      .ok [1, 2, 3] :=
  ⟨claim2_theorem.1 .i64 0 42 (by decide),
   claim2_theorem.2.1 .i8 5 (by decide),
   claim2_theorem.2.2 idBlock zeroKey16 zeroNonce [1, 2, 3] _ rfl rfl⟩

/-- Claim C3, corrected.  A bad-length secret does make every call fail,
but not always with the key-length error, and only `SecureField` caches
the outcome: `EncryptColumn.Value` checks `Valid` first (an invalid
holder with a bad key fails with the invalid-holder error instead), its
`Scan` reports the `crypto/aes` key-size error for byte/string sources
(and the unsupported-source error takes precedence for other sources),
and both re-run the length check on every call; `SecureField` computes
the outcome once at construction and replays the cached error on every
`Value` and `Scan` call. -/
theorem claim3_theorem :
    (∀ (t : Ty) (E : Nat → Nat) (nonce : List Nat) (e : EncryptColumn t),
       keyLenValid e.Key = false → e.Valid = true →
       EncryptColumn.Value E nonce e = .error .keyLengthInvalid) ∧
    (∀ (t : Ty) (E : Nat → Nat) (e : EncryptColumn t) (b : List Nat),
       keyLenValid e.Key = false →
       EncryptColumn.Scan E e (.bytes b) = (e, .err .keySize) ∧
       EncryptColumn.Scan E e (.str b) = (e, .err .keySize)) ∧
    (∀ (t : STy) (secret : List Nat) (v : t.interp),
       keyLenValid secret = false →
       (newSecureField t secret v).initError = some .sfKeyLengthInvalid ∧
       (∀ (E : Nat → Nat) (nonce : List Nat),
          SecureField.Value E nonce (newSecureField t secret v) =
            .error .sfKeyLengthInvalid) ∧
       (∀ (E : Nat → Nat) (src : ScanSrc),
          SecureField.Scan E (newSecureField t secret v) src =
            (newSecureField t secret v, .err .sfKeyLengthInvalid))) ∧
    (∀ (t : STy) (secret : List Nat) (v : t.interp),
       keyLenValid secret = true → (newSecureField t secret v).initError = none) ∧
    (∀ (t : Ty) (E : Nat → Nat) (nonce : List Nat) (e : EncryptColumn t),
       keyLenValid e.Key = true → e.Valid = true →
       EncryptColumn.Value E nonce e = .ok (nonce ++ gcmSeal E nonce (encode t e.Val))) := by
  refine ⟨?_, ?_, ?_, ?_, ?_⟩
  · intro t E nonce e hk hv
    simp [EncryptColumn.Value, hk, hv]
  · intro t E e b hk
    constructor <;> simp [EncryptColumn.Scan, aesDecrypt, hk]
  · intro t secret v hk
    have hie : (newSecureField t secret v).initError = some .sfKeyLengthInvalid := by
      simp [newSecureField, hk]
    exact ⟨hie, fun E nonce => value_replays_initError E nonce _ _ hie,
      fun E src => scan_replays_initError E _ src _ hie⟩
  · intro t secret v hk
    simp [newSecureField, hk]
  · intro t E nonce e hk hv
    simp [EncryptColumn.Value, aesEncrypt, hk, hv]

/-- Concrete instances of the corrected C3 at key lengths 15 and 16. -/
theorem claim3_witness :
    EncryptColumn.Value idBlock zeroNonce
        { Val := (0 : Int), Valid := true, Key := zeroKey15 : EncryptColumn .i64 } =
      .error .keyLengthInvalid ∧
    EncryptColumn.Scan idBlock
        { Val := (0 : Int), Valid := true, Key := zeroKey15 : EncryptColumn .i64 }
        (.bytes [1, 2, 3]) =
      ({ Val := (0 : Int), Valid := true, Key := zeroKey15 }, .err .keySize) ∧
    (newSecureField .i8 zeroKey15 (0 : Int)).initError = some .sfKeyLengthInvalid ∧
    SecureField.Value idBlock zeroNonce (newSecureField .i8 zeroKey15 (0 : Int)) =
      .error .sfKeyLengthInvalid ∧
    SecureField.Scan idBlock (newSecureField .i8 zeroKey15 (0 : Int)) (.bytes [1, 2, 3]) =
      (newSecureField .i8 zeroKey15 (0 : Int), .err .sfKeyLengthInvalid) ∧
    (newSecureField .i8 zeroKey16 (0 : Int)).initError = none ∧
    EncryptColumn.Value idBlock zeroNonce
        { Val := (0 : Int), Valid := true, Key := zeroKey16 : EncryptColumn .i64 } =
      .ok (zeroNonce ++ gcmSeal idBlock zeroNonce (encode .i64 0)) :=
  ⟨claim3_theorem.1 .i64 idBlock zeroNonce _ (by decide) rfl,
   (claim3_theorem.2.1 .i64 idBlock _ [1, 2, 3] (by decide)).1,
   ((claim3_theorem.2.2.1 .i8 zeroKey15 0 (by decide)).1),
   ((claim3_theorem.2.2.1 .i8 zeroKey15 0 (by decide)).2.1 idBlock zeroNonce),
   ((claim3_theorem.2.2.1 .i8 zeroKey15 0 (by decide)).2.2 idBlock (.bytes [1, 2, 3])),
   claim3_theorem.2.2.2.1 .i8 zeroKey16 0 (by decide),
   claim3_theorem.2.2.2.2 .i64 idBlock zeroNonce _ (by decide) rfl⟩

/-- Claim C3 counterexample: a holder with an invalid 15-byte secret and
`Valid = false` fails with the invalid-holder error, not the key-length
error — the `Valid` check precedes the key check in
`EncryptColumn.Value`. -/
theorem claim3_counterexample :
    EncryptColumn.Value idBlock zeroNonce
        { Val := (0 : Int), Valid := false, Key := zeroKey15 : EncryptColumn .i64 } =
      .error .invalid ∧
    Err.invalid ≠ Err.keyLengthInvalid := by
  exact ⟨by decide, by decide⟩

/-- Claim C4, corrected.  Only `SecureField.Scan` guards the
nonce/ciphertext split: it fails with the envelope-too-short error for
inputs shorter than 12 bytes.  `EncryptColumn.aesDecrypt` performs no
length check and the unchecked split panics on such inputs (with a
valid-length key; a bad key fails earlier at `aes.NewCipher`). -/
theorem claim4_theorem :
    (∀ (t : STy) (E : Nat → Nat) (sf : SecureField t) (b : List Nat),
       sf.initError = none → b.length < 12 →
       SecureField.Scan E sf (.bytes b) = (sf, .err .envelopeTooShort) ∧
       SecureField.Scan E sf (.str b) = (sf, .err .envelopeTooShort)) ∧
    (∀ (E : Nat → Nat) (key b : List Nat),
       keyLenValid key = true → b.length < 12 →
       aesDecrypt E key b = .panicked) := by
  constructor
  · intro t E sf b h1 h2
    constructor <;> simp [SecureField.Scan, h1, h2]
  · intro E key b h1 h2
    rw [aesDecrypt, if_pos h1, if_pos h2]

/-- Concrete instances of the corrected C4 on a 5-byte envelope. -/
theorem claim4_witness :
    SecureField.Scan idBlock
        { value := (0 : Int), isValid := true, secret := zeroKey16, initError := none :
          SecureField .i8 }
        (.bytes [0, 0, 0, 0, 0]) =
      ({ value := (0 : Int), isValid := true, secret := zeroKey16, initError := none },
        .err .envelopeTooShort) ∧
    aesDecrypt idBlock zeroKey16 [0, 0, 0, 0, 0] = .panicked :=
  ⟨(claim4_theorem.1 .i8 idBlock _ [0, 0, 0, 0, 0] rfl (by decide)).1,
   claim4_theorem.2 idBlock zeroKey16 [0, 0, 0, 0, 0] (by decide) (by decide)⟩

/-- Claim C4 counterexample: `EncryptColumn`'s open path panics on a
5-byte envelope instead of returning the envelope-too-short error. -/
theorem claim4_counterexample :
    aesDecrypt idBlock zeroKey16 [0, 0, 0, 0, 0] = .panicked ∧
    aesDecrypt idBlock zeroKey16 [0, 0, 0, 0, 0] ≠ .err .envelopeTooShort := by
  exact ⟨by decide, by decide⟩

/-- Claim C5, corrected.  Decoding fails only when the payload is
shorter than the target width: `binary.Read` in
`EncryptColumn.setValAfterDecrypt` accepts a longer payload, consuming
the leading width bytes and ignoring the rest.  Only the `int8`/`int16`
paths of `SecureField` demand the exact width in both directions.  The
3-byte-into-4-byte instance does fail. -/
theorem claim5_theorem :
    (∀ (t : Ty) (w : Nat), t.widthBytes = some w →
       ∀ (cur : t.interp) (b : List Nat),
         (b.length < w → (setValAfterDecrypt t cur b).2 = some .readEOF) ∧
         (w ≤ b.length →
            setValAfterDecrypt t cur b = setValAfterDecrypt t cur (b.take w) ∧
            (setValAfterDecrypt t cur b).2 = none)) ∧
    (∀ b : List Nat, b.length ≠ 1 → sDecode .i8 b = .error (.lenMismatch 1)) ∧
    (∀ b : List Nat, b.length ≠ 2 → sDecode .i16 b = .error (.lenMismatch 2)) ∧
    (∀ (cur : Int) (b : List Nat), b.length = 3 →
       (setValAfterDecrypt .i32 cur b).2 = some .readEOF) := by
  refine ⟨?_, ?_, ?_, ?_⟩
  · intro t w hw cur b
    exact ⟨setVal_short hw cur b, setVal_long hw cur b⟩
  · intro b hb
    simp [sDecode, hb]
  · intro b hb
    simp [sDecode, hb]
  · intro cur b hb
    exact @setVal_short .i32 4 rfl cur b (by omega)

/-- Concrete instances of the corrected C5: a short payload fails, a
long one decodes its leading bytes, the exact-width paths reject, and
the 3-byte-into-int32 instance fails. -/
theorem claim5_witness :
    (setValAfterDecrypt .i32 7 [0, 0, 0]).2 = some .readEOF ∧
    setValAfterDecrypt .i32 7 [0, 0, 0, 42, 9, 9, 9, 9] =
      setValAfterDecrypt .i32 7 [0, 0, 0, 42] ∧
    sDecode .i8 [0, 0] = .error (.lenMismatch 1) ∧
    sDecode .i16 [7] = .error (.lenMismatch 2) ∧
    (setValAfterDecrypt .i32 7 [1, 2, 3]).2 = some .readEOF :=
  ⟨((claim5_theorem.1 .i32 4 rfl 7 [0, 0, 0]).1 (by decide)),
   (by
     have h := ((claim5_theorem.1 .i32 4 rfl 7 [0, 0, 0, 42, 9, 9, 9, 9]).2 (by decide)).1
     simpa using h),
   claim5_theorem.2.1 [0, 0] (by decide),
   claim5_theorem.2.2.1 [7] (by decide),
   claim5_theorem.2.2.2 7 [1, 2, 3] rfl⟩

/-- Claim C5 counterexample: an 8-byte payload decodes successfully into
the 4-byte `int32` target (value `42` stored, no error, trailing four
bytes ignored) instead of failing with a decode error. -/
theorem claim5_counterexample :
    setValAfterDecrypt .i32 7 [0, 0, 0, 42, 0, 0, 0, 0] = (42, none) := by
  decide

/-- Claim C6, confirmed: with the 32-byte all-zero secret and
`int64(42)`, `encode` produces the eight bytes `00 … 00 2A`, `Value`
seals them into `nonce ‖ 8-byte ciphertext ‖ 16-byte tag` (36 bytes),
`aesDecrypt` on the unmodified envelope returns the original eight
bytes, and decoding recovers 42 — for every block permutation and every
12-byte nonce draw. -/
theorem claim6_theorem (E : Nat → Nat) (nonce : List Nat) (h : nonce.length = 12) :
    encode .i64 42 = enc42 ∧
    EncryptColumn.Value E nonce
        { Val := (42 : Int), Valid := true, Key := zeroKey32 : EncryptColumn .i64 } =
      .ok (nonce ++ gcmSeal E nonce enc42) ∧
    gcmSeal E nonce enc42 =
      gcmCT E nonce enc42 ++ gcmTagBytes E nonce (gcmCT E nonce enc42) ∧
    (gcmCT E nonce enc42).length = 8 ∧
    (gcmTagBytes E nonce (gcmCT E nonce enc42)).length = 16 ∧
    (nonce ++ gcmSeal E nonce enc42).length = 36 ∧
    aesDecrypt E zeroKey32 (nonce ++ gcmSeal E nonce enc42) = .ok enc42 ∧
    (∀ cur : Int, setValAfterDecrypt .i64 cur enc42 = (42, none)) := by
  have henc : encode .i64 42 = enc42 := by decide
  have hkey : keyLenValid zeroKey32 = true := by decide
  refine ⟨henc, ?_, rfl, ?_, gcmTagBytes_length E nonce _, ?_, ?_, ?_⟩
  · simp [EncryptColumn.Value, aesEncrypt, hkey, henc]
  · rw [gcmCT_length]
    rfl
  · simp [gcmSeal_length, h, enc42]
  · exact aesDecrypt_aesEncrypt E zeroKey32 nonce enc42 hkey h
  · intro cur
    exact henc ▸ setValAfterDecrypt_encode .i64 cur 42 (by decide)

/-- The C6 scenario instantiated at the identity block permutation and
the all-zero nonce draw. -/
theorem claim6_witness :
    encode .i64 42 = enc42 ∧
    EncryptColumn.Value idBlock zeroNonce
        { Val := (42 : Int), Valid := true, Key := zeroKey32 : EncryptColumn .i64 } =
      .ok (zeroNonce ++ gcmSeal idBlock zeroNonce enc42) ∧
    gcmSeal idBlock zeroNonce enc42 =
      gcmCT idBlock zeroNonce enc42 ++
        gcmTagBytes idBlock zeroNonce (gcmCT idBlock zeroNonce enc42) ∧
    (gcmCT idBlock zeroNonce enc42).length = 8 ∧
    (gcmTagBytes idBlock zeroNonce (gcmCT idBlock zeroNonce enc42)).length = 16 ∧
    (zeroNonce ++ gcmSeal idBlock zeroNonce enc42).length = 36 ∧
    aesDecrypt idBlock zeroKey32 (zeroNonce ++ gcmSeal idBlock zeroNonce enc42) =
      .ok enc42 ∧
    (∀ cur : Int, setValAfterDecrypt .i64 cur enc42 = (42, none)) :=
  claim6_theorem idBlock zeroNonce rfl

/-- Claim C7, confirmed: the envelope starts with the very nonce drawn
for the call, in both implementations, so two seal calls that draw
different random nonces yield envelopes whose leading 12 bytes differ
(nonce freshness itself is the entropy source's property: each call
draws anew, modelled by the per-call nonce argument). -/
theorem claim7_theorem :
    (∀ (E : Nat → Nat) (key x n1 n2 env1 env2 : List Nat),
       n1.length = 12 → n2.length = 12 → n1 ≠ n2 →
       aesEncrypt E key n1 x = .ok env1 → aesEncrypt E key n2 x = .ok env2 →
       env1.take 12 = n1 ∧ env2.take 12 = n2 ∧ env1.take 12 ≠ env2.take 12) ∧
    (∀ (t : STy) (E : Nat → Nat) (sf : SecureField t) (n1 n2 env1 env2 : List Nat),
       n1.length = 12 → n2.length = 12 → n1 ≠ n2 →
       SecureField.Value E n1 sf = .ok env1 → SecureField.Value E n2 sf = .ok env2 →
       env1.take 12 = n1 ∧ env2.take 12 = n2 ∧ env1.take 12 ≠ env2.take 12) := by
  constructor
  · intro E key x n1 n2 env1 env2 h1 h2 hne he1 he2
    obtain ⟨hk1, rfl⟩ := (aesEncrypt_ok_iff E key n1 x env1).1 he1
    obtain ⟨hk2, rfl⟩ := (aesEncrypt_ok_iff E key n2 x env2).1 he2
    refine ⟨List.take_left' h1, List.take_left' h2, ?_⟩
    rw [List.take_left' h1, List.take_left' h2]
    exact hne
  · intro t E sf n1 n2 env1 env2 h1 h2 hne he1 he2
    obtain ⟨_, _, rfl⟩ := (secureValue_ok_iff E n1 sf env1).1 he1
    obtain ⟨_, _, rfl⟩ := (secureValue_ok_iff E n2 sf env2).1 he2
    refine ⟨List.take_left' h1, List.take_left' h2, ?_⟩
    rw [List.take_left' h1, List.take_left' h2]
    exact hne

/-- C7 instantiated: sealing the same plaintext under two different
concrete nonce draws yields envelopes with different leading 12 bytes. -/
theorem claim7_witness :
    ((zeroNonce ++ gcmSeal idBlock zeroNonce [7]).take 12 = zeroNonce ∧
     (oneNonce ++ gcmSeal idBlock oneNonce [7]).take 12 = oneNonce ∧
     (zeroNonce ++ gcmSeal idBlock zeroNonce [7]).take 12 ≠
       (oneNonce ++ gcmSeal idBlock oneNonce [7]).take 12) ∧
    ((zeroNonce ++ gcmSeal idBlock zeroNonce (sEncode .bytes [7])).take 12 = zeroNonce ∧
     (oneNonce ++ gcmSeal idBlock oneNonce (sEncode .bytes [7])).take 12 = oneNonce ∧
     (zeroNonce ++ gcmSeal idBlock zeroNonce (sEncode .bytes [7])).take 12 ≠
       (oneNonce ++ gcmSeal idBlock oneNonce (sEncode .bytes [7])).take 12) :=
  ⟨claim7_theorem.1 idBlock zeroKey16 [7] zeroNonce oneNonce _ _ rfl rfl (by decide) rfl rfl,
   claim7_theorem.2 .bytes idBlock
     { value := [7], isValid := true, secret := zeroKey16, initError := none }
     zeroNonce oneNonce _ _ rfl rfl (by decide) rfl rfl⟩

/-- Claim C8, confirmed: a holder whose validity flag is false refuses
the seal path with the invalid-holder error.  Unconditional for
`EncryptColumn`; for `SecureField` under its reachability invariant
(a failed-initialisation holder is never marked invalid), since the
cached-initialisation-error check precedes the validity check. -/
theorem claim8_theorem :
    (∀ (t : Ty) (E : Nat → Nat) (nonce : List Nat) (e : EncryptColumn t),
       e.Valid = false → EncryptColumn.Value E nonce e = .error .invalid) ∧
    (∀ (t : STy) (E : Nat → Nat) (nonce : List Nat) (sf : SecureField t),
       CryptoInv sf → sf.isValid = false →
       SecureField.Value E nonce sf = .error .invalidHolderState) := by
  constructor
  · intro t E nonce e hv
    simp [EncryptColumn.Value, hv]
  · intro t E nonce sf hinv hv
    have hie : sf.initError = none := by
      rcases hni : sf.initError with _ | er
      · rfl
      · exact absurd (hinv (by simp [hni])) (by simp [hv])
    simp [SecureField.Value, hie, hv]

/-- C8 instantiated at concrete invalid holders. -/
theorem claim8_witness :
    EncryptColumn.Value idBlock zeroNonce
        { Val := (0 : Int), Valid := false, Key := zeroKey16 : EncryptColumn .i64 } =
      .error .invalid ∧
    SecureField.Value idBlock zeroNonce
        { value := (0 : Int), isValid := false, secret := zeroKey16, initError := none :
          SecureField .i8 } =
      .error .invalidHolderState :=
  ⟨claim8_theorem.1 .i64 idBlock zeroNonce _ rfl,
   claim8_theorem.2 .i8 idBlock zeroNonce _ (fun hc => (hc rfl).elim) rfl⟩

/-- Claim C9, corrected.  `EncryptColumn.Scan` returns the
unsupported-source error for a non-byte, non-string source regardless of
any key state, but `SecureField.Scan` checks the cached initialisation
error first: a holder whose crypto initialisation failed returns that
sticky error even for an unsupported source, and only a holder with a
successful initialisation reports the unsupported-source error. -/
theorem claim9_theorem :
    (∀ (t : Ty) (E : Nat → Nat) (e : EncryptColumn t),
       EncryptColumn.Scan E e .other = (e, .err .unsupportedSourceType)) ∧
    (∀ (t : STy) (E : Nat → Nat) (sf : SecureField t),
       sf.initError = none →
       SecureField.Scan E sf .other = (sf, .err .unsupportedSourceType)) ∧
    (∀ (t : STy) (E : Nat → Nat) (sf : SecureField t) (er : Err),
       sf.initError = some er →
       SecureField.Scan E sf .other = (sf, .err er)) := by
  refine ⟨?_, ?_, ?_⟩
  · intro t E e
    rfl
  · intro t E sf h
    simp [SecureField.Scan, h]
  · intro t E sf er h
    exact scan_replays_initError E sf .other er h

/-- C9 instantiated: a successfully initialised holder reports the
unsupported source; a failed-initialisation holder replays its cached
error. -/
theorem claim9_witness :
    SecureField.Scan idBlock
        { value := (0 : Int), isValid := true, secret := zeroKey16, initError := none :
          SecureField .i8 } .other =
      ({ value := (0 : Int), isValid := true, secret := zeroKey16, initError := none },
        .err .unsupportedSourceType) ∧
    SecureField.Scan idBlock (newSecureField .i8 zeroKey15 0) .other =
      (newSecureField .i8 zeroKey15 0, .err .sfKeyLengthInvalid) :=
  ⟨claim9_theorem.2.1 .i8 idBlock _ rfl,
   claim9_theorem.2.2 .i8 idBlock _ .sfKeyLengthInvalid (by decide)⟩

/-- Claim C9 counterexample: a `SecureField` built with a 15-byte secret
(failed crypto initialisation) scanning a non-byte, non-string source
returns the sticky key-length error, not the unsupported-source error
the claim demands for every cryptographic state. -/
theorem claim9_counterexample :
    (SecureField.Scan idBlock (newSecureField .bytes zeroKey15 []) .other).2 =
      .err .sfKeyLengthInvalid ∧
    Err.sfKeyLengthInvalid ≠ Err.unsupportedSourceType := by
  exact ⟨by decide, by decide⟩

end Sqlx

/-- Claim C10, confirmed: in-bounds `Add` inserts the element — the
result has length `len(src)+1`, keeps the first `index` elements,
carries the element at position `index` and the remaining original
elements after it — and an out-of-bounds index yields the
index-out-of-range error carrying the length and the index. -/
theorem claim10_theorem {α : Type} [Inhabited α] (src : List α) (e : α) (index : Int) :
    (0 ≤ index → index ≤ (src.length : Int) →
      Slice.Add src e index =
        .ok (src.take index.toNat ++ e :: src.drop index.toNat) ∧
      (src.take index.toNat ++ e :: src.drop index.toNat).length = src.length + 1 ∧
      (src.take index.toNat ++ e :: src.drop index.toNat).take index.toNat =
        src.take index.toNat ∧
      (src.take index.toNat ++ e :: src.drop index.toNat)[index.toNat]? = some e ∧
      (src.take index.toNat ++ e :: src.drop index.toNat).drop (index.toNat + 1) =
        src.drop index.toNat) ∧
    ((index < 0 ∨ (src.length : Int) < index) →
      Slice.Add src e index = .error (.indexOutOfRange src.length index)) := by
  constructor
  · intro h0 hle
    have hidx : index.toNat ≤ src.length := by omega
    have hcast : ((index.toNat : Nat) : Int) = index := Int.toNat_of_nonneg h0
    have hAdd := Slice.Add_eq_insert src e index.toNat hidx
    rw [hcast] at hAdd
    have htl : (src.take index.toNat).length = index.toNat := by simp; omega
    refine ⟨hAdd, ?_, ?_, ?_, ?_⟩
    · simp
      omega
    · exact List.take_left' htl
    · rw [List.getElem?_append_right (by omega), htl, Nat.sub_self]
      simp
    · rw [show src.take index.toNat ++ e :: src.drop index.toNat =
          (src.take index.toNat ++ [e]) ++ src.drop index.toNat from by simp]
      exact List.drop_left' (by simp [htl])
  · exact Slice.Add_out_of_range src e index

/-- C10 instantiated at the head-insertion and negative-index test
cases of the repository's `TestAdd`. -/
theorem claim10_witness :
    Slice.Add ([123, 100] : List Int) 233 0 = .ok [233, 123, 100] ∧
    Slice.Add ([123, 100] : List Int) 233 (-1) =
      .error (.indexOutOfRange 2 (-1)) := by
  constructor
  · have h := (claim10_theorem ([123, 100] : List Int) 233 0).1 (by decide) (by decide)
    rw [h.1]
    rfl
  · exact (claim10_theorem ([123, 100] : List Int) 233 (-1)).2 (by decide)
